import Mathlib

/-!
Verification of the observable/subscription core of `benlesh/trex`
(src/Observable.ts, src/Subject.ts, src/util/chainAbort.ts) against its
natural-language specification.

Each section shallowly embeds one part of the source as executable Lean
definitions: mutable per-subscription state becomes an explicit state record,
the callback methods (`next`, `error`, `complete`) become step functions on
that record, and the event deliveries a subscription can receive become an
explicit event alphabet.  Theorems about the embeddings settle the claims.
-/

namespace Trex

/-! ### SafeSubscriber (Observable.ts lines 379-421)

`SafeSubscriber` wraps a partial observer.  `DFlags` records which of the
observer's three handlers are present (duck-typed `typeof ... === "function"`
checks in the source).  `SafeS` is the subscriber's mutable state: the
`_closed` flag, whether its own `AbortController` was aborted, the events
delivered to the wrapped observer, and the number of errors routed to
`hostReportError` (taken when an `error` arrives with no `error` handler).
`sstep` transcribes the three methods; `srun` folds a call sequence. -/

structure DFlags where
  hasN : Bool
  hasE : Bool
  hasC : Bool

inductive SEv where
  | n (v : Nat)
  | e
  | c
deriving DecidableEq

inductive SCall where
  | cN (v : Nat)
  | cE
  | cC
deriving DecidableEq

structure SafeS where
  closed : Bool
  aborted : Bool
  dlog : List SEv
  hostErrs : Nat
deriving DecidableEq

/-- Transcription of `SafeSubscriber.next` / `.error` / `.complete`:
each method is a no-op once `_closed` is set; `error`/`complete` set
`_closed`, invoke the present handler (or the host reporter for a missing
`error` handler), then abort the subscriber's controller. -/
def sstep (d : DFlags) (st : SafeS) : SCall → SafeS := fun call =>
  match call with
  | .cN v =>
    if st.closed then st
    else if d.hasN then {st with dlog := st.dlog ++ [.n v]} else st
  | .cE =>
    if st.closed then st
    else
      let st1 := {st with closed := true}
      let st2 :=
        if d.hasE then {st1 with dlog := st1.dlog ++ [.e]}
        else {st1 with hostErrs := st1.hostErrs + 1}
      {st2 with aborted := true}
  | .cC =>
    if st.closed then st
    else
      let st1 := {st with closed := true}
      let st2 := if d.hasC then {st1 with dlog := st1.dlog ++ [.c]} else st1
      {st2 with aborted := true}

def sinit : SafeS := ⟨false, false, [], 0⟩

def srun (d : DFlags) (calls : List SCall) : SafeS :=
  calls.foldl (sstep d) sinit

def isTermEv : SEv → Bool
  | .n _ => false
  | .e => true
  | .c => true

/-- Number of terminal (`error`/`complete`) events in a delivered log. -/
def termCount (l : List SEv) : Nat := (l.filter isTermEv).length

/-- Invariant tying the `closed` flag to the delivered log and the abort
flag: while open, no terminal was delivered and the controller is intact;
once closed, at most one terminal was delivered and the controller aborted. -/
def SInv (st : SafeS) : Prop :=
  (st.closed = false → termCount st.dlog = 0 ∧ st.aborted = false)
  ∧ (st.closed = true → termCount st.dlog ≤ 1 ∧ st.aborted = true)

theorem sinit_inv : SInv sinit := by
  constructor
  · intro _; exact ⟨rfl, rfl⟩
  · intro h; simp [sinit] at h

theorem termCount_append (a b : List SEv) :
    termCount (a ++ b) = termCount a + termCount b := by
  simp [termCount, List.filter_append]

theorem sstep_inv (d : DFlags) (st : SafeS) (c : SCall) (h : SInv st) :
    SInv (sstep d st c) := by
  obtain ⟨hopen, hclosed⟩ := h
  cases c with
  | cN v =>
    by_cases hc : st.closed
    · simp [sstep, hc]; exact ⟨hopen, hclosed⟩
    · simp only [Bool.not_eq_true] at hc
      by_cases hn : d.hasN
      · simp only [sstep, hc, if_false, Bool.false_eq_true, hn, if_true]
        constructor
        · intro _
          have := hopen hc
          refine ⟨?_, this.2⟩
          rw [termCount_append, this.1]
          simp [termCount, isTermEv]
        · intro hcl; simp [hc] at hcl
      · simp only [sstep, hc, if_false, Bool.false_eq_true, hn, if_false]
        exact ⟨hopen, hclosed⟩
  | cE =>
    by_cases hc : st.closed
    · simp [sstep, hc]; exact ⟨hopen, hclosed⟩
    · simp only [Bool.not_eq_true] at hc
      have hop := hopen hc
      by_cases he : d.hasE
      · simp only [sstep, hc, if_false, Bool.false_eq_true, he, if_true]
        constructor
        · intro hcl; simp at hcl
        · intro _
          refine ⟨?_, rfl⟩
          rw [termCount_append, hop.1]
          decide
      · simp only [sstep, hc, if_false, Bool.false_eq_true, he, if_false]
        constructor
        · intro hcl; simp at hcl
        · intro _
          refine ⟨?_, rfl⟩
          simp [hop.1]
  | cC =>
    by_cases hc : st.closed
    · simp [sstep, hc]; exact ⟨hopen, hclosed⟩
    · simp only [Bool.not_eq_true] at hc
      have hop := hopen hc
      by_cases hcc : d.hasC
      · simp only [sstep, hc, if_false, Bool.false_eq_true, hcc, if_true]
        constructor
        · intro hcl; simp at hcl
        · intro _
          refine ⟨?_, rfl⟩
          rw [termCount_append, hop.1]
          decide
      · simp only [sstep, hc, if_false, Bool.false_eq_true, hcc, if_false]
        constructor
        · intro hcl; simp at hcl
        · intro _
          refine ⟨?_, rfl⟩
          simp [hop.1]

theorem srun_inv (d : DFlags) (calls : List SCall) : SInv (srun d calls) := by
  have : ∀ (l : List SCall) (st : SafeS), SInv st → SInv (l.foldl (sstep d) st) := by
    intro l
    induction l with
    | nil => intro st h; exact h
    | cons c rest ih => intro st h; exact ih _ (sstep_inv d st c h)
  exact this calls sinit sinit_inv

theorem sstep_closed_id (d : DFlags) (st : SafeS) (hc : st.closed = true) (c : SCall) :
    sstep d st c = st := by
  cases c <;> simp [sstep, hc]

/-- Claim C4 — for every subscriber created by `subscribe` and every call
sequence: once `error` or `complete` fired, `closed` stays true and all three
methods are no-ops (the state, hence the delivered log, never changes again);
at most one of `error`/`complete` is ever delivered to the wrapped observer;
and whenever the subscriber is closed its own cancellation token was aborted
(in particular the first terminal call closes and aborts it). -/
theorem safeSubscriber_invariants (d : DFlags) (calls : List SCall) :
    (∀ c, (srun d calls).closed = true → sstep d (srun d calls) c = srun d calls)
    ∧ termCount (srun d calls).dlog ≤ 1
    ∧ (∀ more, (srun d calls).closed = true → srun d (calls ++ more) = srun d calls)
    ∧ ((srun d calls).closed = true → (srun d calls).aborted = true)
    ∧ ((srun d calls).closed = false →
        (sstep d (srun d calls) .cE).closed = true
        ∧ (sstep d (srun d calls) .cE).aborted = true
        ∧ (sstep d (srun d calls) .cC).closed = true
        ∧ (sstep d (srun d calls) .cC).aborted = true) := by
  have hinv := srun_inv d calls
  refine ⟨?_, ?_, ?_, ?_, ?_⟩
  · intro c hc; exact sstep_closed_id d _ hc c
  · rcases hinv with ⟨hopen, hclosed⟩
    by_cases hc : (srun d calls).closed
    · exact (hclosed hc).1
    · simp only [Bool.not_eq_true] at hc
      rw [(hopen hc).1]; omega
  · intro more hc
    have : ∀ (l : List SCall) (st : SafeS), st.closed = true → l.foldl (sstep d) st = st := by
      intro l
      induction l with
      | nil => intro st _; rfl
      | cons c rest ih =>
        intro st h
        simp only [List.foldl_cons, sstep_closed_id d st h c]
        exact ih st h
    simp only [srun, List.foldl_append]
    exact this more _ hc
  · intro hc; exact (hinv.2 hc).2
  · intro hc
    constructor
    · by_cases he : d.hasE <;> simp [sstep, hc, he]
    constructor
    · by_cases he : d.hasE <;> simp [sstep, hc, he]
    constructor
    · by_cases hcc : d.hasC <;> simp [sstep, hc, hcc]
    · by_cases hcc : d.hasC <;> simp [sstep, hc, hcc]

/-- Witness for C4: a full observer receiving `next 1` then `complete` is
closed, and a further `error` call is a no-op. -/
theorem safeSubscriber_invariants_witness :
    sstep ⟨true, true, true⟩ (srun ⟨true, true, true⟩ [SCall.cN 1, SCall.cC]) SCall.cE
      = srun ⟨true, true, true⟩ [SCall.cN 1, SCall.cC] :=
  (safeSubscriber_invariants ⟨true, true, true⟩ [SCall.cN 1, SCall.cC]).1 SCall.cE rfl

/-! ### scan (Observable.ts lines 177-206)

JavaScript values relevant to `scan`: numbers, `NaN`, and `undefined` (the
value of `state` when no `initialValue` argument was passed, since the source
initialises `let state: A = initialValue!`).  `jadd` is JavaScript `+` on
these values: any operand that is `undefined` or `NaN` yields `NaN`.

`scanGo` transcribes the `next` handler: for each source value it first — when
no seed was supplied (`hasInit = false`, i.e. `arguments.length !== 2`) and
the index is 0 — forwards the raw value, then unconditionally runs
`state = callback(state, value, index)` and forwards the new state. -/

inductive JV where
  | num (n : Int)
  | nan
  | undef
deriving DecidableEq

def jadd : JV → JV → JV
  | .num a, .num b => .num (a + b)
  | _, _ => .nan

def scanGo (cb : JV → JV → Nat → JV) (hasInit : Bool) :
    List JV → JV → Nat → List JV
  | [], _, _ => []
  | v :: rest, state, idx =>
    let pre := if !hasInit && idx == 0 then [v] else []
    let st2 := cb state v idx
    pre ++ st2 :: scanGo cb hasInit rest st2 (idx + 1)

/-- `scan(callback)` with no seed: `hasInit` is false and the running state
starts as `undefined`. -/
def scanNoSeed (cb : JV → JV → Nat → JV) (xs : List JV) : List JV :=
  scanGo cb false xs .undef 0

/-- `scan(callback, initialValue)` with a seed. -/
def scanSeed (cb : JV → JV → Nat → JV) (seed : JV) (xs : List JV) : List JV :=
  scanGo cb true xs seed 0

/-- Claim C6 — code_bug evidence.  Piping an Observable over `[1,2,3]`
through `scan((a,b)=>a+b)` with no seed: the code forwards the first value,
but then still reduces the `undefined` initial state through the accumulator
and forwards each (NaN) result, emitting `[1, NaN, NaN, NaN]` — four values —
instead of the specified `[1, 3, 6]`.  With seed 10 the output matches the
spec (`[11, 13, 16]`). -/
theorem scan_no_seed_divergence :
    scanNoSeed (fun a v _ => jadd a v) [JV.num 1, JV.num 2, JV.num 3]
      = [JV.num 1, JV.nan, JV.nan, JV.nan]
    ∧ scanNoSeed (fun a v _ => jadd a v) [JV.num 1, JV.num 2, JV.num 3]
      ≠ [JV.num 1, JV.num 3, JV.num 6]
    ∧ scanSeed (fun a v _ => jadd a v) (JV.num 10) [JV.num 1, JV.num 2, JV.num 3]
      = [JV.num 11, JV.num 13, JV.num 16] := by
  refine ⟨rfl, ?_, rfl⟩
  decide

/-! ### Observable.from over an iterable (Observable.ts lines 12-24)

`from(iterable)` drains the iterator in a loop, checking `signal.aborted`
before each element and `break`ing when set; after the loop it calls
`subscriber.complete()` unconditionally.  The drain is synchronous, so the
token can only abort mid-drain when a `next` handler aborts the caller's
external controller; `chainAbort` then cascades that abort to the fresh
controller created by `subscribe`, whose signal the loop checks.

`FSt` holds the two abort flags, the `SafeSubscriber`'s `_closed` flag, and
the events the destination observer received.  `trigger` models a destination
whose `next` handler aborts the external controller on selected values. -/

structure FSt where
  extAborted : Bool
  cAborted : Bool
  closed : Bool
  flog : List SEv
deriving DecidableEq

/-- The destination's `next` handler: records the value, then (for trigger
values) aborts the external controller, which `chainAbort` propagates to the
subscription's own controller. -/
def destNextF (trigger : Nat → Bool) (v : Nat) (st : FSt) : FSt :=
  let st1 := {st with flog := st.flog ++ [.n v]}
  if trigger v then {st1 with extAborted := true, cAborted := true} else st1

def safeNextF (trigger : Nat → Bool) (st : FSt) (v : Nat) : FSt :=
  if st.closed then st else destNextF trigger v st

def safeCompleteF (st : FSt) : FSt :=
  if st.closed then st
  else {st with closed := true, flog := st.flog ++ [.c], cAborted := true}

/-- Transcription of the `from` drain loop: before each element the loop
checks `signal.aborted` and breaks when set; after the loop (exhaustion or
break) it calls `subscriber.complete()`. -/
def fromDrain (trigger : Nat → Bool) : List Nat → FSt → FSt
  | [], st => safeCompleteF st
  | v :: rest, st =>
    if st.cAborted then safeCompleteF st
    else fromDrain trigger rest (safeNextF trigger st v)

def fromRun (trigger : Nat → Bool) (xs : List Nat) : FSt :=
  fromDrain trigger xs ⟨false, false, false, []⟩

/-- Claim C9 — code_bug evidence.  Without cancellation, `from([1,2,3])`
delivers every value then `complete` (first conjunct).  But when the
subscriber aborts its token upon receiving the first value, the drain does
stop delivering values — yet because `subscriber.complete()` runs after the
`break` and an abort does not close the `SafeSubscriber`, the destination
still receives a `complete` event, contradicting the claim that an aborted
subscription receives no completion. -/
theorem from_abort_still_completes :
    (fromRun (fun _ => false) [1, 2, 3]).flog = [SEv.n 1, SEv.n 2, SEv.n 3, SEv.c]
    ∧ (fromRun (fun v => v == 1) [1, 2, 3]).flog = [SEv.n 1, SEv.c]
    ∧ (fromRun (fun v => v == 1) [1, 2, 3]).extAborted = true := by
  exact ⟨rfl, rfl, rfl⟩

/-! ### Observable.from input dispatch (Observable.ts lines 12-41, 423-425)

`from` first checks `typeof input[Symbol.iterator] === "function"`, then
`isPromiseLike` (which requires both `then` and `catch` to be functions), and
otherwise throws `TypeError("Value is not observable")` synchronously.
`JSInput` records which of the three duck-typed members are functions. -/

structure JSInput where
  hasIterFn : Bool
  hasThenFn : Bool
  hasCatchFn : Bool
deriving DecidableEq

inductive FromSrc where
  | iterSrc
  | promiseSrc
deriving DecidableEq

inductive JsErr where
  | typeError
deriving DecidableEq

def isPromiseLike (i : JSInput) : Bool := i.hasThenFn && i.hasCatchFn

/-- Transcription of `Observable.from`'s dispatch: iterable inputs and
promise-like inputs yield an Observable (whose subscription procedure is the
corresponding adapter); anything else throws a `TypeError` before any
Observable — and hence any subscriber — is created. -/
def observableFrom (i : JSInput) : Except JsErr FromSrc :=
  if i.hasIterFn then .ok .iterSrc
  else if isPromiseLike i then .ok .promiseSrc
  else .error .typeError

/-- Claim C10 — for every input exposing neither a function-valued
`Symbol.iterator` member nor a then/catch resolution contract, `from` throws
a `TypeError` synchronously: the result is the error, no Observable (and so
no subscriber) is ever produced. -/
theorem from_throws_on_unobservable (i : JSInput)
    (hiter : i.hasIterFn = false) (hp : isPromiseLike i = false) :
    observableFrom i = .error .typeError := by
  simp [observableFrom, hiter, hp]

/-- Witness for C10: an input with only a `catch` member (so not
promise-like, not iterable) is rejected. -/
theorem from_throws_on_unobservable_witness :
    observableFrom ⟨false, false, true⟩ = .error .typeError :=
  from_throws_on_unobservable ⟨false, false, true⟩ rfl rfl

/-! ### filter + take pipeline (Observable.ts lines 105-148)

Embedding of `source.filter(cb).take(k).subscribe(observer)` for a
synchronous list source (`Observable.from`).  Per the subscription chain in
the source, there are three `SafeSubscriber`s: `safe_T` wraps the caller's
observer (take's downstream), `safe_F` wraps take's observer (filter's
downstream), `safe_S` wraps filter's observer (the source's subscriber).
Each nested `subscribe` chains its fresh controller to the parent signal, so
when `take` self-completes — `subscriber.next(value); if (++i === count)
subscriber.complete();` — closing `safe_T` aborts its controller and the
abort cascades down to the source's signal, which the `from` drain loop
checks between elements.  `PSt` carries take's counter `tcount`, filter's
running index `fIdx`, the three `_closed` flags, a single `sAborted` flag for
the source-level signal (every terminal in this pipeline cascades to it), and
the events delivered to the caller's observer. -/

structure PSt where
  tcount : Nat
  fIdx : Nat
  sClosed : Bool
  fClosed : Bool
  tClosed : Bool
  sAborted : Bool
  plog : List SEv
deriving DecidableEq

/-- `safe_T.complete`: close, deliver `complete` downstream, abort (cascades
to the source signal). -/
def pTComplete (st : PSt) : PSt :=
  if st.tClosed then st
  else {st with tClosed := true, plog := st.plog ++ [.c], sAborted := true}

/-- `safe_T.next`: deliver the value to the caller's observer when open. -/
def pTNext (st : PSt) (v : Nat) : PSt :=
  if st.tClosed then st else {st with plog := st.plog ++ [.n v]}

/-- take's observer `next`: forward, post-increment `i`, complete on reaching
`count`. -/
def takeONext (k : Nat) (st : PSt) (v : Nat) : PSt :=
  let st1 := pTNext st v
  let st2 := {st1 with tcount := st1.tcount + 1}
  if st2.tcount = k then pTComplete st2 else st2

def pFNext (k : Nat) (st : PSt) (v : Nat) : PSt :=
  if st.fClosed then st else takeONext k st v

/-- `safe_F.complete`: close, run take's observer complete (which forwards to
`safe_T.complete`), abort filter's controller (cascades to the source). -/
def pFComplete (st : PSt) : PSt :=
  if st.fClosed then st
  else
    let st1 := {st with fClosed := true}
    let st2 := pTComplete st1
    {st2 with sAborted := true}

/-- filter's observer `next`: evaluate the predicate at the post-incremented
index, forward only when it holds. -/
def filterONext (cb : Nat → Nat → Bool) (k : Nat) (st : PSt) (v : Nat) : PSt :=
  let b := cb v st.fIdx
  let st1 := {st with fIdx := st.fIdx + 1}
  if b then pFNext k st1 v else st1

def pSNext (cb : Nat → Nat → Bool) (k : Nat) (st : PSt) (v : Nat) : PSt :=
  if st.sClosed then st else filterONext cb k st v

/-- `safe_S.complete`: close, run filter's observer complete (forwarding down
the chain), abort the source controller. -/
def pSComplete (st : PSt) : PSt :=
  if st.sClosed then st
  else
    let st1 := {st with sClosed := true}
    let st2 := pFComplete st1
    {st2 with sAborted := true}

/-- The `from` drain loop driving the pipeline: check the source signal
before each element, `break` when aborted, and call `subscriber.complete()`
after the loop. -/
def pipeDrain (cb : Nat → Nat → Bool) (k : Nat) : List Nat → PSt → PSt
  | [], st => pSComplete st
  | v :: rest, st =>
    if st.sAborted then pSComplete st
    else pipeDrain cb k rest (pSNext cb k st v)

def pipeRun (cb : Nat → Nat → Bool) (k : Nat) (xs : List Nat) : PSt :=
  pipeDrain cb k xs ⟨0, 0, false, false, false, false, []⟩

/-- `filter`'s semantics on a list, threading the running callback index. -/
def filterIdx (cb : Nat → Nat → Bool) : Nat → List Nat → List Nat
  | _, [] => []
  | i, v :: rest =>
    if cb v i then v :: filterIdx cb (i + 1) rest else filterIdx cb (i + 1) rest

/-- Number of `next` events in a delivered log. -/
def countNext (l : List SEv) : Nat := (l.filter fun ev => !isTermEv ev).length

theorem filterIdx_const (p : Nat → Bool) :
    ∀ (i : Nat) (xs : List Nat), filterIdx (fun v _ => p v) i xs = xs.filter p := by
  intro i xs
  induction xs generalizing i with
  | nil => rfl
  | cons v rest ih =>
    by_cases hp : p v <;> simp [filterIdx, List.filter_cons, hp, ih]

theorem pSComplete_closed_log (st : PSt) (hs : st.sClosed = false)
    (hf : st.fClosed = false) (ht : st.tClosed = true) :
    (pSComplete st).plog = st.plog := by
  simp [pSComplete, pFComplete, pTComplete, hs, hf, ht]

theorem pipeDrain_aborted (cb : Nat → Nat → Bool) (k : Nat) (xs : List Nat) (st : PSt)
    (ha : st.sAborted = true) (hs : st.sClosed = false)
    (hf : st.fClosed = false) (ht : st.tClosed = true) :
    (pipeDrain cb k xs st).plog = st.plog := by
  cases xs with
  | nil => exact pSComplete_closed_log st hs hf ht
  | cons v rest =>
    simp only [pipeDrain, ha, if_true]
    exact pSComplete_closed_log st hs hf ht

theorem pipeDrain_open (cb : Nat → Nat → Bool) (k : Nat) :
    ∀ (xs : List Nat) (c i0 : Nat) (L : List SEv), c < k →
      (pipeDrain cb k xs ⟨c, i0, false, false, false, false, L⟩).plog
        = L ++ ((filterIdx cb i0 xs).take (k - c)).map SEv.n ++ [SEv.c] := by
  intro xs
  induction xs with
  | nil =>
    intro c i0 L _
    simp [pipeDrain, pSComplete, pFComplete, pTComplete, filterIdx]
  | cons v rest ih =>
    intro c i0 L hck
    simp only [pipeDrain, if_false, Bool.false_eq_true]
    by_cases hb : cb v i0
    · by_cases hk : c + 1 = k
      · have h1 :
            pSNext cb k ⟨c, i0, false, false, false, false, L⟩ v
              = ⟨k, i0 + 1, false, false, true, true, L ++ [SEv.n v, SEv.c]⟩ := by
          simp [pSNext, filterONext, pFNext, takeONext, pTNext, pTComplete, hb, hk]
        rw [h1, pipeDrain_aborted cb k rest _ rfl rfl rfl rfl]
        have hkc : k - c = 1 := by omega
        simp [filterIdx, hb, hkc]
      · have hck1 : c + 1 < k := by omega
        have h1 :
            pSNext cb k ⟨c, i0, false, false, false, false, L⟩ v
              = ⟨c + 1, i0 + 1, false, false, false, false, L ++ [SEv.n v]⟩ := by
          simp [pSNext, filterONext, pFNext, takeONext, pTNext, hb, hk]
        rw [h1, ih (c + 1) (i0 + 1) (L ++ [SEv.n v]) hck1]
        have hkc : k - c = (k - (c + 1)) + 1 := by omega
        simp [filterIdx, hb, hkc, List.take_succ_cons]
    · have h1 :
          pSNext cb k ⟨c, i0, false, false, false, false, L⟩ v
            = ⟨c, i0 + 1, false, false, false, false, L⟩ := by
        simp [pSNext, filterONext, hb]
      rw [h1, ih c (i0 + 1) L hck]
      simp [filterIdx, hb]

theorem countNext_map_n (a : List Nat) :
    countNext (a.map SEv.n ++ [SEv.c]) = a.length := by
  induction a with
  | nil => rfl
  | cons v rest ih =>
    simpa [countNext, isTermEv, List.filter_cons] using ih

/-- Claim C7 (amended to `1 ≤ k`) — for every finite source `S`, predicate
`p`, and `k ≥ 1`, `filter(p)` followed by `take(k)` delivers exactly the
first `k` elements of `S` satisfying `p` (all of them when fewer satisfy `p`)
followed by one `complete`, and never more than `k` values. -/
theorem filter_take_first_k (p : Nat → Bool) (k : Nat) (xs : List Nat)
    (hk : 1 ≤ k) :
    (pipeRun (fun v _ => p v) k xs).plog
      = ((xs.filter p).take k).map SEv.n ++ [SEv.c]
    ∧ countNext (pipeRun (fun v _ => p v) k xs).plog ≤ k := by
  have h := pipeDrain_open (fun v _ => p v) k xs 0 0 [] (by omega)
  rw [filterIdx_const] at h
  have hmain : (pipeRun (fun v _ => p v) k xs).plog
      = ((xs.filter p).take k).map SEv.n ++ [SEv.c] := by
    simpa [pipeRun] using h
  refine ⟨hmain, ?_⟩
  rw [hmain, countNext_map_n]
  calc ((xs.filter p).take k).length ≤ k := List.length_take_le k _

/-- Witness for C7's amended theorem at `p = isEven`, `k = 2`,
`S = [1,2,3,4,5,6]`. -/
theorem filter_take_first_k_witness :
    1 ≤ 2
    ∧ ((pipeRun (fun v _ => v % 2 == 0) 2 [1, 2, 3, 4, 5, 6]).plog
        = (([1, 2, 3, 4, 5, 6].filter (fun v => v % 2 == 0)).take 2).map SEv.n ++ [SEv.c]
      ∧ countNext (pipeRun (fun v _ => v % 2 == 0) 2 [1, 2, 3, 4, 5, 6]).plog ≤ 2) :=
  ⟨by omega, filter_take_first_k (fun v => v % 2 == 0) 2 [1, 2, 3, 4, 5, 6] (by omega)⟩

/-- Counterexample to C7 as stated: at `k = 0` the claim requires zero values
downstream, but `take(0)` never triggers its counting branch (`++i === 0` is
unreachable), so `filter(true).take(0)` over `[1]` forwards the value and
then completes with the source — one value, exceeding `k = 0`. -/
theorem filter_take_zero_emits :
    (pipeRun (fun _ _ => true) 0 [1]).plog = [SEv.n 1, SEv.c]
    ∧ 0 < countNext (pipeRun (fun _ _ => true) 0 [1]).plog := by
  exact ⟨rfl, by decide⟩

/-! ### mergeMap (Observable.ts lines 227-270)

Per-subscription state machine of `mergeMap(callback)`.  `MSt` holds the
operator's locals (`index`, `active`, `outerComplete`), the downstream
`SafeSubscriber`'s closed flag and delivered log (`DSt`), plus bookkeeping of
which inner subscriptions can still deliver events (`opens`: an inner is
listed from its subscription until its own terminal closes its
`SafeSubscriber`).  `srcDone` records that the outer source's terminal closed
the outer `SafeSubscriber`, after which no further outer events can arrive.

The event alphabet `MEv` is exactly what the operator's two observers can
receive; events that the closed-`SafeSubscriber` gating makes impossible
(outer events after the outer terminal, inner events from a non-open inner)
are no-ops in `mstep`, mirroring the fact that a closed `SafeSubscriber`
drops them.  `srcNext false` models the mapping callback throwing. -/

inductive MEv where
  | srcNext (ok : Bool)
  | srcError
  | srcComplete
  | innerNext (j x : Nat)
  | innerError (j : Nat)
  | innerComplete (j : Nat)
deriving DecidableEq

inductive MOut where
  | next (x : Nat)
  | error
  | complete
deriving DecidableEq

structure DSt where
  dclosed : Bool
  dlog : List MOut
deriving DecidableEq

def dNext (d : DSt) (x : Nat) : DSt :=
  if d.dclosed then d else {d with dlog := d.dlog ++ [.next x]}

def dError (d : DSt) : DSt :=
  if d.dclosed then d else ⟨true, d.dlog ++ [.error]⟩

def dComplete (d : DSt) : DSt :=
  if d.dclosed then d else ⟨true, d.dlog ++ [.complete]⟩

structure MSt where
  midx : Nat
  active : Nat
  outerComplete : Bool
  srcDone : Bool
  opens : List Nat
  down : DSt
deriving DecidableEq

/-- One event delivery to `mergeMap`'s observers, transcribed from the
source: outer `next` runs the callback (`index++` happens even when it
throws; `active++` and the inner subscription only on success); outer
`complete` sets `outerComplete` and completes downstream only when
`active === 0`; inner `complete` decrements `active` and completes downstream
only when `outerComplete && active === 0`; every error is forwarded
downstream at once. -/
def mstep (st : MSt) : MEv → MSt := fun ev =>
  match ev with
  | .srcNext ok =>
    if st.srcDone then st
    else if ok then
      {st with midx := st.midx + 1, active := st.active + 1,
               opens := st.opens ++ [st.midx]}
    else {st with midx := st.midx + 1, down := dError st.down}
  | .srcError =>
    if st.srcDone then st else {st with srcDone := true, down := dError st.down}
  | .srcComplete =>
    if st.srcDone then st
    else
      let st1 := {st with srcDone := true, outerComplete := true}
      if st1.active = 0 then {st1 with down := dComplete st1.down} else st1
  | .innerNext j x =>
    if j ∈ st.opens then {st with down := dNext st.down x} else st
  | .innerError j =>
    if j ∈ st.opens then
      {st with opens := st.opens.erase j, down := dError st.down}
    else st
  | .innerComplete j =>
    if j ∈ st.opens then
      let st1 := {st with opens := st.opens.erase j, active := st.active - 1}
      if st1.outerComplete ∧ st1.active = 0 then
        {st1 with down := dComplete st1.down}
      else st1
    else st

def minit : MSt := ⟨0, 0, false, false, [], ⟨false, []⟩⟩

def mrun (evs : List MEv) : MSt := evs.foldl mstep minit

/-- Inductive invariant of the mergeMap machine: the open inners are counted
by `active`; `outerComplete` is only ever set by the outer terminal; and a
delivered downstream `complete` certifies that the outer source completed
and the active-inner count is zero. -/
def MInv (st : MSt) : Prop :=
  st.opens.length ≤ st.active
  ∧ (st.outerComplete = true → st.srcDone = true)
  ∧ (MOut.complete ∈ st.down.dlog → st.outerComplete = true ∧ st.active = 0)

theorem minit_inv : MInv minit := by
  refine ⟨by simp [minit], by simp [minit], by simp [minit]⟩

theorem complete_mem_dError (d : DSt) :
    MOut.complete ∈ (dError d).dlog ↔ MOut.complete ∈ d.dlog := by
  by_cases hd : d.dclosed <;> simp [dError, hd]

theorem complete_mem_dNext (d : DSt) (x : Nat) :
    MOut.complete ∈ (dNext d x).dlog ↔ MOut.complete ∈ d.dlog := by
  by_cases hd : d.dclosed <;> simp [dNext, hd]

theorem mstep_inv (st : MSt) (ev : MEv) (h : MInv st) : MInv (mstep st ev) := by
  obtain ⟨hlen, houter, hcomp⟩ := h
  cases ev with
  | srcNext ok =>
    by_cases hd : st.srcDone
    · simp only [mstep, hd, if_true]; exact ⟨hlen, houter, hcomp⟩
    · simp only [Bool.not_eq_true] at hd
      cases ok with
      | true =>
        simp only [mstep, hd, if_false, if_true, Bool.false_eq_true]
        refine ⟨by simp; omega, ?_, ?_⟩
        · intro hoc
          exact absurd (houter hoc) (by simp [hd])
        · intro hc
          exact absurd (houter (hcomp hc).1) (by simp [hd])
      | false =>
        simp only [mstep, hd, if_false, Bool.false_eq_true]
        refine ⟨hlen, ?_, ?_⟩
        · intro hoc
          exact absurd (houter hoc) (by simp [hd])
        · intro hc
          rw [complete_mem_dError] at hc
          exact absurd (houter (hcomp hc).1) (by simp [hd])
  | srcError =>
    by_cases hd : st.srcDone
    · simp only [mstep, hd, if_true]; exact ⟨hlen, houter, hcomp⟩
    · simp only [Bool.not_eq_true] at hd
      simp only [mstep, hd, if_false, Bool.false_eq_true]
      refine ⟨hlen, fun _ => rfl, ?_⟩
      intro hc
      rw [complete_mem_dError] at hc
      exact hcomp hc
  | srcComplete =>
    by_cases hd : st.srcDone
    · simp only [mstep, hd, if_true]; exact ⟨hlen, houter, hcomp⟩
    · simp only [Bool.not_eq_true] at hd
      by_cases ha : st.active = 0
      · simp only [mstep, hd, if_false, ha, if_true, Bool.false_eq_true]
        refine ⟨?_, fun _ => rfl, fun _ => ⟨rfl, rfl⟩⟩
        dsimp only
        omega
      · simp only [mstep, hd, if_false, ha, Bool.false_eq_true]
        refine ⟨hlen, fun _ => rfl, ?_⟩
        intro hc
        exact absurd (houter (hcomp hc).1) (by simp [hd])
  | innerNext j x =>
    by_cases hj : j ∈ st.opens
    · simp only [mstep, hj, if_true]
      refine ⟨hlen, houter, ?_⟩
      intro hc
      rw [complete_mem_dNext] at hc
      exact hcomp hc
    · simp only [mstep, hj, if_false]; exact ⟨hlen, houter, hcomp⟩
  | innerError j =>
    by_cases hj : j ∈ st.opens
    · simp only [mstep, hj, if_true]
      refine ⟨?_, houter, ?_⟩
      · calc (st.opens.erase j).length ≤ st.opens.length :=
              (st.opens.erase_sublist j).length_le
          _ ≤ st.active := hlen
      · intro hc
        rw [complete_mem_dError] at hc
        exact hcomp hc
    · simp only [mstep, hj, if_false]; exact ⟨hlen, houter, hcomp⟩
  | innerComplete j =>
    by_cases hj : j ∈ st.opens
    · have hlenj : 1 ≤ st.opens.length := List.length_pos.mpr (by
        intro hnil; rw [hnil] at hj; exact absurd hj (List.not_mem_nil j))
      have herase : (st.opens.erase j).length = st.opens.length - 1 :=
        List.length_erase_of_mem hj
      by_cases hcnd : st.outerComplete = true ∧ st.active - 1 = 0
      · obtain ⟨hoc, hact⟩ := hcnd
        simp only [mstep, hj, if_true, hoc, hact]
        rw [if_pos (by constructor <;> trivial)]
        refine ⟨?_, fun _ => houter hoc, fun _ => ⟨rfl, rfl⟩⟩
        dsimp only
        omega
      · simp only [mstep, hj, if_true]
        rw [if_neg hcnd]
        refine ⟨?_, houter, ?_⟩
        · dsimp only
          simp only [herase]; omega
        · intro hc
          have h0 := hcomp hc
          have : st.opens.length = 0 := by omega
          rw [List.length_eq_zero.mp this] at hj
          exact absurd hj (List.not_mem_nil j)
    · simp only [mstep, hj, if_false]; exact ⟨hlen, houter, hcomp⟩

theorem mrun_inv (evs : List MEv) : MInv (mrun evs) := by
  have : ∀ (l : List MEv) (st : MSt), MInv st → MInv (l.foldl mstep st) := by
    intro l
    induction l with
    | nil => intro st h; exact h
    | cons ev rest ih => intro st h; exact ih _ (mstep_inv st ev h)
  exact this evs minit minit_inv

/-- Claim C3 — completion and error policy of `mergeMap`:
(1) on every reachable state, a delivered downstream `complete` implies the
outer source completed and the active-inner count is zero (so completion is
never delivered on outer completion alone while inners remain);
(2,3) completion is delivered at the step that establishes "outer complete
and zero active inners" — by the outer terminal when no inner is active, or
by the last inner's completion after the outer completed;
(4) outer completion with inners still active does not deliver `complete`;
(5,6) an error from the outer source, from the mapping callback, or from any
inner is appended downstream immediately, with no condition on the other
inners. -/
theorem mergeMap_completion_policy (evs : List MEv) (s : MSt) (j : Nat) :
    (MOut.complete ∈ (mrun evs).down.dlog →
      (mrun evs).outerComplete = true ∧ (mrun evs).active = 0)
    ∧ (s.down.dclosed = false → s.srcDone = false → s.active = 0 →
        (mstep s .srcComplete).down.dlog = s.down.dlog ++ [.complete])
    ∧ (s.down.dclosed = false → s.outerComplete = true → s.active = 1 →
        j ∈ s.opens →
        (mstep s (.innerComplete j)).down.dlog = s.down.dlog ++ [.complete])
    ∧ (0 < s.active → MOut.complete ∉ s.down.dlog →
        MOut.complete ∉ (mstep s .srcComplete).down.dlog)
    ∧ (s.down.dclosed = false → s.srcDone = false →
        (mstep s .srcError).down.dlog = s.down.dlog ++ [.error]
        ∧ (mstep s (.srcNext false)).down.dlog = s.down.dlog ++ [.error])
    ∧ (s.down.dclosed = false → j ∈ s.opens →
        (mstep s (.innerError j)).down.dlog = s.down.dlog ++ [.error]) := by
  refine ⟨(mrun_inv evs).2.2, ?_, ?_, ?_, ?_, ?_⟩
  · intro hdc hsd ha
    simp [mstep, hsd, ha, dComplete, hdc]
  · intro hdc hoc ha hj
    simp [mstep, hj, hoc, ha, dComplete, hdc]
  · intro ha hnc
    by_cases hsd : s.srcDone = true
    · simp only [mstep, hsd, if_true]; exact hnc
    · simp only [Bool.not_eq_true] at hsd
      have hna : ¬ s.active = 0 := by omega
      simp only [mstep, hsd, hna, if_false, Bool.false_eq_true]
      exact hnc
  · intro hdc hsd
    constructor
    · simp [mstep, hsd, dError, hdc]
    · simp [mstep, hsd, dError, hdc]
  · intro hdc hj
    simp [mstep, hj, dError, hdc]

/-- Witness for C3: from the empty state (downstream open, source not
terminated, no active inners), the outer `complete` event immediately
delivers `complete` downstream. -/
theorem mergeMap_completion_policy_witness :
    (mstep minit MEv.srcComplete).down.dlog = minit.down.dlog ++ [MOut.complete] :=
  (mergeMap_completion_policy [] minit 0).2.1 rfl rfl rfl

/-! ### Subject (Subject.ts)

A `Subject` holds `_subscribers` in registration order (`regs`, identified by
ids) and a `_closed` flag.  Each registered subscriber is a `SafeSubscriber`
whose state (`SEnt`) we track by id, and whose controller carries the abort
listener installed by the Subject's constructor: when the subscriber's
controller aborts, the subscriber is spliced out of `_subscribers`
(`indexOf`/`splice`, i.e. erase of the first occurrence).

`subjNextS` transcribes `next`: when not closed, iterate the subscriber list
delivering the value (a delivery does not touch the registration list).
`subjErrorS`/`subjCompleteS` transcribe the terminal methods: when not
closed, set `closed`, then repeatedly `shift()` the earliest subscriber and
deliver the terminal event to it.  Delivering the terminal closes that
subscriber's `SafeSubscriber` and aborts its controller, which fires the
removal listener — the "subscriber attempts to unregister itself" reentrancy
of the claim — modelled faithfully inside `termDeliver`.  The while loop is
run with fuel equal to the current list length, which the loop can only
shrink.  `trace` records every delivery in order. -/

structure SEnt where
  sClosed : Bool
  sAborted : Bool

inductive TOut where
  | nextTo (id v : Nat)
  | errTo (id : Nat)
  | compTo (id : Nat)
deriving DecidableEq

structure SbSt where
  regs : List Nat
  closed : Bool
  ents : Nat → SEnt
  trace : List TOut

/-- Delivery of `next(v)` to one subscriber: its `SafeSubscriber` forwards
only while open. -/
def nextDeliver (v : Nat) (id : Nat) (st : SbSt) : SbSt :=
  if (st.ents id).sClosed then st
  else {st with trace := st.trace ++ [.nextTo id v]}

def fanNext (v : Nat) : List Nat → SbSt → SbSt
  | [], st => st
  | id :: rest, st => fanNext v rest (nextDeliver v id st)

/-- `Subject.next`: when not closed, deliver to each registered subscriber
in registration order. -/
def subjNextS (v : Nat) (st : SbSt) : SbSt :=
  if st.closed then st else fanNext v st.regs st

/-- Terminal delivery to one (already shifted-out) subscriber: the
`SafeSubscriber` closes, records the event, then aborts its controller;
the abort fires the Subject's removal listener, which erases the subscriber
from the registration list (a no-op for an already-shifted subscriber). -/
def termDeliver (isErr : Bool) (id : Nat) (st : SbSt) : SbSt :=
  let ent := st.ents id
  if ent.sClosed then st
  else
    let st1 := {st with
      ents := fun i => if i = id then ⟨true, ent.sAborted⟩ else st.ents i,
      trace := st.trace ++ [if isErr then TOut.errTo id else TOut.compTo id]}
    if ent.sAborted then st1
    else
      {st1 with
        ents := fun i => if i = id then ⟨true, true⟩ else st1.ents i,
        regs := st1.regs.erase id}

/-- The `while (this._subscribers.length > 0)` drain loop: shift the
earliest subscriber out of the list and deliver the terminal event to it. -/
def drainGo (isErr : Bool) : Nat → SbSt → SbSt
  | 0, st => st
  | f + 1, st =>
    match st.regs with
    | [] => st
    | id :: rest => drainGo isErr f (termDeliver isErr id {st with regs := rest})

def subjErrorS (st : SbSt) : SbSt :=
  if st.closed then st
  else drainGo true st.regs.length {st with closed := true}

def subjCompleteS (st : SbSt) : SbSt :=
  if st.closed then st
  else drainGo false st.regs.length {st with closed := true}

theorem fanNext_spec (v : Nat) :
    ∀ (l : List Nat) (st : SbSt),
      (∀ id ∈ l, (st.ents id).sClosed = false) →
      (fanNext v l st).regs = st.regs
      ∧ (fanNext v l st).closed = st.closed
      ∧ (fanNext v l st).ents = st.ents
      ∧ (fanNext v l st).trace = st.trace ++ l.map (fun id => TOut.nextTo id v) := by
  intro l
  induction l with
  | nil => intro st _; exact ⟨rfl, rfl, rfl, by simp [fanNext]⟩
  | cons id rest ih =>
    intro st hopen
    have hid : (st.ents id).sClosed = false := hopen id (List.mem_cons_self id rest)
    have hstep : nextDeliver v id st = {st with trace := st.trace ++ [.nextTo id v]} := by
      simp [nextDeliver, hid]
    have hrest : ∀ i ∈ rest, (({st with trace := st.trace ++ [.nextTo id v]} : SbSt).ents i).sClosed = false := by
      intro i hi; exact hopen i (List.mem_cons_of_mem id hi)
    have := ih {st with trace := st.trace ++ [.nextTo id v]} hrest
    simp only [fanNext, hstep]
    refine ⟨this.1, this.2.1, this.2.2.1, ?_⟩
    rw [this.2.2.2]
    simp

theorem drainGo_spec (isErr : Bool) :
    ∀ (l : List Nat) (st : SbSt),
      st.regs = l → l.Nodup →
      (∀ id ∈ l, (st.ents id).sClosed = false ∧ (st.ents id).sAborted = false) →
      (drainGo isErr l.length st).regs = []
      ∧ (drainGo isErr l.length st).closed = st.closed
      ∧ (drainGo isErr l.length st).trace
          = st.trace ++ l.map (fun id => if isErr then TOut.errTo id else TOut.compTo id) := by
  intro l
  induction l with
  | nil =>
    intro st hregs _ _
    exact ⟨hregs, rfl, by simp [drainGo]⟩
  | cons id rest ih =>
    intro st hregs hnd hopen
    have hid := hopen id (List.mem_cons_self id rest)
    have hnotmem : id ∉ rest := (List.nodup_cons.mp hnd).1
    have hstep :
        termDeliver isErr id {st with regs := rest}
          = {st with
              regs := rest,
              ents := fun i => if i = id then ⟨true, true⟩ else st.ents i,
              trace := st.trace ++ [if isErr then TOut.errTo id else TOut.compTo id]} := by
      simp only [termDeliver, hid.1, hid.2, if_false, Bool.false_eq_true]
      have herase : rest.erase id = rest := List.erase_of_not_mem hnotmem
      simp only [herase]
      congr 1
      funext i
      by_cases hi : i = id <;> simp [hi]
    have hrest : ∀ i ∈ rest,
        ((termDeliver isErr id {st with regs := rest}).ents i).sClosed = false
        ∧ ((termDeliver isErr id {st with regs := rest}).ents i).sAborted = false := by
      intro i hi
      have hne : ¬ (i = id) := fun hh => hnotmem (hh ▸ hi)
      rw [hstep]
      simpa [hne] using hopen i (List.mem_cons_of_mem id hi)
    have hregs2 : (termDeliver isErr id {st with regs := rest}).regs = rest := by
      rw [hstep]
    have := ih (termDeliver isErr id {st with regs := rest}) hregs2
      (List.nodup_cons.mp hnd).2 hrest
    simp only [List.length_cons, drainGo, hregs]
    refine ⟨this.1, ?_, ?_⟩
    · rw [this.2.1, hstep]
    · rw [this.2.2, hstep]
      simp

/-- Claim C8 — for every unclosed Subject with distinct open registered
subscribers: `next(v)` delivers `v` to exactly the subscribers registered at
call time, in registration order, removing none and leaving the Subject
open; `error`/`complete` close the Subject and deliver the terminal event to
every registered subscriber exactly once, in registration order, draining
the list — even though each delivery makes that subscriber attempt to
unregister itself (the abort-listener erase inside `termDeliver`); and a
closed Subject's three methods are no-ops. -/
theorem subject_dispatch (st : SbSt) (v : Nat)
    (hc : st.closed = false)
    (hnd : st.regs.Nodup)
    (hopen : ∀ id ∈ st.regs, (st.ents id).sClosed = false ∧ (st.ents id).sAborted = false) :
    ((subjNextS v st).regs = st.regs
      ∧ (subjNextS v st).closed = false
      ∧ (subjNextS v st).trace = st.trace ++ st.regs.map (fun id => TOut.nextTo id v))
    ∧ ((subjErrorS st).closed = true
      ∧ (subjErrorS st).regs = []
      ∧ (subjErrorS st).trace = st.trace ++ st.regs.map TOut.errTo)
    ∧ ((subjCompleteS st).closed = true
      ∧ (subjCompleteS st).regs = []
      ∧ (subjCompleteS st).trace = st.trace ++ st.regs.map TOut.compTo)
    ∧ (∀ st2 : SbSt, st2.closed = true →
        subjNextS v st2 = st2 ∧ subjErrorS st2 = st2 ∧ subjCompleteS st2 = st2) := by
  refine ⟨?_, ?_, ?_, ?_⟩
  · have h := fanNext_spec v st.regs st (fun id hid => (hopen id hid).1)
    simp only [subjNextS, hc, if_false, Bool.false_eq_true]
    exact ⟨h.1, by rw [h.2.1]; exact hc, h.2.2.2⟩
  · have h := drainGo_spec true st.regs {st with closed := true} rfl hnd hopen
    simp only [subjErrorS, hc, if_false, Bool.false_eq_true]
    refine ⟨by rw [h.2.1], h.1, ?_⟩
    rw [h.2.2]
    simp
  · have h := drainGo_spec false st.regs {st with closed := true} rfl hnd hopen
    simp only [subjCompleteS, hc, if_false, Bool.false_eq_true]
    refine ⟨by rw [h.2.1], h.1, ?_⟩
    rw [h.2.2]
    simp
  · intro st2 hc2
    exact ⟨by simp [subjNextS, hc2], by simp [subjErrorS, hc2], by simp [subjCompleteS, hc2]⟩

/-- Concrete Subject with two open subscribers, for the C8 witness. -/
def sbTwo : SbSt := ⟨[1, 2], false, fun _ => ⟨false, false⟩, []⟩

/-- Witness for C8: on a Subject with subscribers 1 and 2, `error` delivers
the terminal to both, earliest first. -/
theorem subject_dispatch_witness :
    (subjErrorS sbTwo).trace = sbTwo.trace ++ [1, 2].map TOut.errTo :=
  (subject_dispatch sbTwo 0 rfl (by decide)
    (fun id hid => ⟨rfl, rfl⟩)).2.1.2.2

/-! ### World interpreter: controllers, chainAbort, Subjects, switchMap,
concatMap (Observable.ts lines 55-64, 272-376; Subject.ts; chainAbort.ts)

A small-step interpreter for pipelines built from Subjects and the two
stateful flattening operators, used where a claim needs several interacting
components.  The world `W` holds:
  * `ctrls` — AbortControllers: an `aborted` flag plus registered abort
    listeners (id, payload).  Listener payloads are the three closure shapes
    occurring in the source: `chainAbort`'s parent-side handler (abort the
    child), `chainAbort`'s child-side cleanup (remove the handler from the
    parent), and the Subject constructor's removal listener (erase the
    subscriber from the Subject's list).
  * `safes` — `SafeSubscriber`s: closed flag, destination, own controller.
    Destinations are the observer shapes of the scenarios: the caller's
    logging observer, and switchMap's/concatMap's outer and inner observers.
  * `subjs` — Subjects: closed flag and registered subscriber list.
  * one optional switchMap and one optional concatMap per-subscription state,
    transcribed from the operators' captured locals.
`exec` processes a queue of pending deliveries depth-first, which yields
exactly the synchronous nested-call order of the JavaScript, and is
structurally recursive on a fuel argument (every scenario run leaves fuel to
spare, so the fuel never truncates a run). -/

inductive L where
  | chainHandler (child : Nat)
  | chainCleanup (parent : Nat) (hid : Nat)
  | subjRemove (subj : Nat) (safe : Nat)
deriving DecidableEq

structure Ctrl where
  aborted : Bool
  listeners : List (Nat × L)
deriving DecidableEq

inductive Dest where
  | dLog
  | swOuter
  | swInner
  | coOuter
  | coInner
deriving DecidableEq

structure Safe where
  closed : Bool
  dest : Dest
  ctrl : Nat
deriving DecidableEq

structure Subj where
  closed : Bool
  subs : List Nat
deriving DecidableEq

/-- switchMap's captured locals: `index`, `outerComplete`,
`innerAbortController` (as an optional controller id), plus the downstream
`SafeSubscriber` and the `signal` argument of the subscription procedure. -/
structure SwitchSt where
  sidx : Nat
  souterComplete : Bool
  innerCtrl : Option Nat
  sdownSafe : Nat
  ssig : Nat
deriving DecidableEq

/-- concatMap's captured locals: `index`, `outerComplete`, `buffer`, plus
downstream safe and captured signal. -/
structure ConcatSt where
  cidx : Nat
  couterComplete : Bool
  buffer : List Nat
  cdownSafe : Nat
  csig : Nat
deriving DecidableEq

structure W where
  ctrls : List Ctrl
  safes : List Safe
  subjs : List Subj
  lid : Nat
  sw : Option SwitchSt
  co : Option ConcatSt
  wlog : List SEv
  abortLog : List Nat
deriving DecidableEq

def getCtrl (w : W) (c : Nat) : Ctrl := w.ctrls.getD c ⟨true, []⟩

def setCtrl (w : W) (c : Nat) (x : Ctrl) : W := {w with ctrls := w.ctrls.set c x}

def getSafe (w : W) (s : Nat) : Safe := w.safes.getD s ⟨true, .dLog, 0⟩

def setSafe (w : W) (s : Nat) (x : Safe) : W := {w with safes := w.safes.set s x}

def getSubj (w : W) (j : Nat) : Subj := w.subjs.getD j ⟨true, []⟩

def setSubj (w : W) (j : Nat) (x : Subj) : W := {w with subjs := w.subjs.set j x}

/-- `removeEventListener`: drop the listener registration with the given id. -/
def rmListener (w : W) (c hid : Nat) : W :=
  let ct := getCtrl w c
  setCtrl w c {ct with listeners := ct.listeners.filter (fun pl => pl.1 ≠ hid)}

/-- The Subject constructor's abort handler: `indexOf` + `splice(index, 1)`,
i.e. erase the first occurrence of the subscriber. -/
def subjErase (w : W) (j s : Nat) : W :=
  let sb := getSubj w j
  setSubj w j {sb with subs := sb.subs.erase s}

/-- Transcription of `chainAbort(parentSignal, childController)`: create the
handler (aborting the child), register the cleanup (removing that handler
from the parent) on the child's signal, then register the handler on the
parent. -/
def chainAbortW (w : W) (parent child : Nat) : W :=
  let hid := w.lid
  let cid := w.lid + 1
  let w1 := {w with lid := w.lid + 2}
  let cc := getCtrl w1 child
  let w2 := setCtrl w1 child
    {cc with listeners := cc.listeners ++ [(cid, .chainCleanup parent hid)]}
  let pc := getCtrl w2 parent
  setCtrl w2 parent {pc with listeners := pc.listeners ++ [(hid, .chainHandler child)]}

def allocCtrl (w : W) : Nat × W :=
  (w.ctrls.length, {w with ctrls := w.ctrls ++ [⟨false, []⟩]})

def allocSafe (w : W) (d : Dest) (c : Nat) : Nat × W :=
  (w.safes.length, {w with safes := w.safes ++ [⟨false, d, c⟩]})

/-- The scenarios' mapping callback `v => S_v`: inner Subjects are
pre-allocated at the id equal to the outer value. -/
def innerOf (v : Nat) : Nat := v

/-- Transcription of `Observable.subscribe(observer, signal?)` where the
Observable is a Subject: allocate a fresh controller, chain it under the
caller's signal when one is given, wrap the observer in a fresh
`SafeSubscriber`, then run the Subject's subscription procedure (push the
subscriber; register the removal listener on the fresh signal). -/
def subscribeSubj (w : W) (j : Nat) (d : Dest) (parentSig : Option Nat) : W :=
  let pc := allocCtrl w
  let w2 := match parentSig with
    | some p => chainAbortW pc.2 p pc.1
    | none => pc.2
  let ps := allocSafe w2 d pc.1
  let sb := getSubj ps.2 j
  let w4 := setSubj ps.2 j {sb with subs := sb.subs ++ [ps.1]}
  let ct := getCtrl w4 pc.1
  let hid := w4.lid
  setCtrl {w4 with lid := hid + 1} pc.1
    {ct with listeners := ct.listeners ++ [(hid, .subjRemove j ps.1)]}

/-- Transcription of concatMap's `checkSubscribe`: when the buffer is
nonempty, shift the head, derive the inner (here `innerOf`) and subscribe
its observer under the captured outer signal. -/
def checkSubscribe (w : W) : W :=
  match w.co with
  | none => w
  | some cst =>
    match cst.buffer with
    | [] => w
    | v :: restBuf =>
      let w1 := {w with co := some {cst with buffer := restBuf, cidx := cst.cidx + 1}}
      subscribeSubj w1 (innerOf v) .coInner (some cst.csig)

/-- Pending deliveries: controller aborts and listener firings, the three
`SafeSubscriber` methods, the Subject methods and their terminal drain loop,
and the tail of switchMap's outer `next` (run after the previous inner's
controller was aborted). -/
inductive Act where
  | abortC (c : Nat)
  | fireL (l : L)
  | safeNextA (s v : Nat)
  | safeErrorA (s : Nat)
  | safeCompleteA (s : Nat)
  | subjNextA (j v : Nat)
  | subjErrorA (j : Nat)
  | subjCompleteA (j : Nat)
  | drainA (j : Nat) (isErr : Bool)
  | swResub (v : Nat)
deriving DecidableEq

/-- Depth-first execution of the pending-delivery queue.  Each case is the
transcription of the corresponding source method; an action's nested calls
are prepended to the queue, reproducing synchronous call order. -/
def exec : Nat → List Act → W → W
  | 0, _, w => w
  | _ + 1, [], w => w
  | f + 1, a :: rest, w =>
    match a with
    | .abortC c =>
      let ct := getCtrl w c
      if ct.aborted then exec f rest w
      else
        let w1 := setCtrl w c {ct with aborted := true}
        let w2 := {w1 with abortLog := w1.abortLog ++ [c]}
        exec f (ct.listeners.map (fun pl => Act.fireL pl.2) ++ rest) w2
    | .fireL l =>
      match l with
      | .chainHandler child => exec f (.abortC child :: rest) w
      | .chainCleanup parent hid => exec f rest (rmListener w parent hid)
      | .subjRemove j s => exec f rest (subjErase w j s)
    | .safeNextA s v =>
      let sf := getSafe w s
      if sf.closed then exec f rest w
      else
        match sf.dest with
        | .dLog => exec f rest {w with wlog := w.wlog ++ [.n v]}
        | .swOuter =>
          match w.sw with
          | none => exec f rest w
          | some sst =>
            match sst.innerCtrl with
            | some ic =>
              exec f (.abortC ic :: .swResub v :: rest)
                {w with sw := some {sst with innerCtrl := none}}
            | none => exec f (.swResub v :: rest) w
        | .swInner =>
          match w.sw with
          | none => exec f rest w
          | some sst => exec f (.safeNextA sst.sdownSafe v :: rest) w
        | .coOuter =>
          match w.co with
          | none => exec f rest w
          | some cst =>
            exec f rest
              (checkSubscribe {w with co := some {cst with buffer := cst.buffer ++ [v]}})
        | .coInner =>
          match w.co with
          | none => exec f rest w
          | some cst => exec f (.safeNextA cst.cdownSafe v :: rest) w
    | .safeErrorA s =>
      let sf := getSafe w s
      if sf.closed then exec f rest w
      else
        let w1 := setSafe w s {sf with closed := true}
        match sf.dest with
        | .dLog =>
          exec f (.abortC sf.ctrl :: rest) {w1 with wlog := w1.wlog ++ [.e]}
        | .swOuter | .swInner =>
          match w1.sw with
          | none => exec f (.abortC sf.ctrl :: rest) w1
          | some sst => exec f (.safeErrorA sst.sdownSafe :: .abortC sf.ctrl :: rest) w1
        | .coOuter | .coInner =>
          match w1.co with
          | none => exec f (.abortC sf.ctrl :: rest) w1
          | some cst => exec f (.safeErrorA cst.cdownSafe :: .abortC sf.ctrl :: rest) w1
    | .safeCompleteA s =>
      let sf := getSafe w s
      if sf.closed then exec f rest w
      else
        let w1 := setSafe w s {sf with closed := true}
        match sf.dest with
        | .dLog =>
          exec f (.abortC sf.ctrl :: rest) {w1 with wlog := w1.wlog ++ [.c]}
        | .swOuter =>
          match w1.sw with
          | none => exec f (.abortC sf.ctrl :: rest) w1
          | some sst =>
            let w2 := {w1 with sw := some {sst with souterComplete := true}}
            match sst.innerCtrl with
            | none => exec f (.safeCompleteA sst.sdownSafe :: .abortC sf.ctrl :: rest) w2
            | some _ => exec f (.abortC sf.ctrl :: rest) w2
        | .swInner =>
          match w1.sw with
          | none => exec f (.abortC sf.ctrl :: rest) w1
          | some sst =>
            let w2 := {w1 with sw := some {sst with innerCtrl := none}}
            if sst.souterComplete then
              exec f (.safeCompleteA sst.sdownSafe :: .abortC sf.ctrl :: rest) w2
            else exec f (.abortC sf.ctrl :: rest) w2
        | .coOuter =>
          match w1.co with
          | none => exec f (.abortC sf.ctrl :: rest) w1
          | some cst =>
            let w2 := {w1 with co := some {cst with couterComplete := true}}
            if cst.buffer.isEmpty then
              exec f (.safeCompleteA cst.cdownSafe :: .abortC sf.ctrl :: rest) w2
            else exec f (.abortC sf.ctrl :: rest) w2
        | .coInner =>
          match w1.co with
          | none => exec f (.abortC sf.ctrl :: rest) w1
          | some cst =>
            if cst.couterComplete && cst.buffer.isEmpty then
              exec f (.safeCompleteA cst.cdownSafe :: .abortC sf.ctrl :: rest) w1
            else exec f (.abortC sf.ctrl :: rest) (checkSubscribe w1)
    | .subjNextA j v =>
      let sb := getSubj w j
      if sb.closed then exec f rest w
      else exec f (sb.subs.map (fun s => Act.safeNextA s v) ++ rest) w
    | .subjErrorA j =>
      let sb := getSubj w j
      if sb.closed then exec f rest w
      else exec f (.drainA j true :: rest) (setSubj w j {sb with closed := true})
    | .subjCompleteA j =>
      let sb := getSubj w j
      if sb.closed then exec f rest w
      else exec f (.drainA j false :: rest) (setSubj w j {sb with closed := true})
    | .drainA j isErr =>
      let sb := getSubj w j
      match sb.subs with
      | [] => exec f rest w
      | h :: t =>
        let w1 := setSubj w j {sb with subs := t}
        exec f
          ((if isErr then Act.safeErrorA h else Act.safeCompleteA h)
            :: .drainA j isErr :: rest) w1
    | .swResub v =>
      match w.sw with
      | none => exec f rest w
      | some sst =>
        let pc := allocCtrl w
        let w1 := chainAbortW pc.2 sst.ssig pc.1
        let w2 := {w1 with sw := some {sst with innerCtrl := some pc.1, sidx := sst.sidx + 1}}
        exec f rest (subscribeSubj w2 (innerOf v) .swInner (some sst.ssig))

/-! #### C5 — chainAbort on a parent/child pair -/

/-- A world of one parent controller (0) and one child controller (1), with
`chainAbort(parent.signal, child)` applied and nothing else. -/
def chainPairW : W :=
  chainAbortW ⟨[⟨false, []⟩, ⟨false, []⟩], [], [], 0, none, none, [], []⟩ 0 1

def chainParentRun : W := exec 10 [.abortC 0] chainPairW

def chainChildRun : W := exec 10 [.abortC 1] chainPairW

/-- Claim C5 — for a parent and child linked by `chainAbort`: aborting the
parent aborts the child exactly once (the abort transition log is exactly
`[parent, child]`, and a repeated parent abort changes nothing); aborting
the child never aborts the parent; and either way, once the child has
aborted, the propagation handler `chainAbort` registered on the parent has
been removed (the parent's listener list is empty again). -/
theorem chainAbort_parent_child :
    (getCtrl chainParentRun 1).aborted = true
    ∧ chainParentRun.abortLog = [0, 1]
    ∧ (getCtrl chainParentRun 0).listeners = []
    ∧ (getCtrl chainChildRun 0).aborted = false
    ∧ (getCtrl chainChildRun 1).aborted = true
    ∧ chainChildRun.abortLog = [1]
    ∧ (getCtrl chainChildRun 0).listeners = []
    ∧ exec 10 [.abortC 0] chainParentRun = chainParentRun
    ∧ exec 10 [.abortC 1] chainChildRun = chainChildRun := by
  decide

/-! #### C1 — switchMap scenario: outer Subject 0, inner Subjects 1 and 2 -/

/-- Three open Subjects and nothing else. -/
def w0subj : W :=
  ⟨[], [], [⟨false, []⟩, ⟨false, []⟩, ⟨false, []⟩], 0, none, none, [], []⟩

/-- `subjectO.switchMap(v => S_v).subscribe(log)`: downstream controller 0
and logging SafeSubscriber 0, switchMap state capturing them, and the outer
Subject subscribed with the switchMap outer observer under signal 0. -/
def swSetup : W :=
  let pc := allocCtrl w0subj
  let ps := allocSafe pc.2 .dLog pc.1
  let w1 := {ps.2 with sw := some ⟨0, false, none, ps.1, pc.1⟩}
  subscribeSubj w1 0 .swOuter (some pc.1)

/-- After the outer emitted 1 (inner S1 subscribed) and then 2. -/
def swRun2 : W := exec 100 [.subjNextA 0 1, .subjNextA 0 2] swSetup

/-- ... and then the superseded inner S1 emits 42. -/
def swRun3 : W := exec 100 [.subjNextA 1 42] swRun2

/-- Claim C1 — code_bug evidence.  After the outer emits `v₂ = 2`, the code
did abort the child token it created for the first inner (`abortLog = [2]`),
but the first inner's actual subscription was made with the *outer* signal
(`result.subscribe(..., signal)`), so S1 still holds its subscriber (id 2,
still open): the superseded inner was not torn down, and when S1 then emits
42 the value is forwarded to the downstream log — a value from I1 emitted
after v₂'s arrival reaching downstream, which the claim forbids. -/
theorem switchMap_superseded_inner_leaks :
    swRun2.abortLog = [2]
    ∧ (getSubj swRun2 1).subs = [2]
    ∧ (getSafe swRun2 2).closed = false
    ∧ swRun3.wlog = [SEv.n 42] := by
  decide

/-! #### C2 — concatMap scenario: outer Subject 0, inner Subjects 1 and 2 -/

/-- `subjectO.concatMap(v => S_v).subscribe(log)`. -/
def coSetup : W :=
  let pc := allocCtrl w0subj
  let ps := allocSafe pc.2 .dLog pc.1
  let w1 := {ps.2 with co := some ⟨0, false, [], ps.1, pc.1⟩}
  subscribeSubj w1 0 .coOuter (some pc.1)

/-- After the outer emitted 1 and then 2, with neither inner completed. -/
def coRun2 : W := exec 100 [.subjNextA 0 1, .subjNextA 0 2] coSetup

/-- ... and then S2 emits 99 and S1 emits 7. -/
def coRun3 : W := exec 100 [.subjNextA 2 99, .subjNextA 1 7] coRun2

/-- Alternative run: outer emits 1 then completes while S1 is still active. -/
def coRunC : W := exec 100 [.subjNextA 0 1, .subjCompleteA 0] coSetup

/-- Claim C2 — code_bug evidence.  The outer `next` handler pushes to the
buffer and immediately calls `checkSubscribe` with no active-inner guard, so
after `v₁, v₂` both inner Subjects hold live subscriptions simultaneously
(subscriber 2 in S1 and subscriber 3 in S2) — two active inners; the second
inner's value 99 then reaches downstream before the first inner has emitted
anything, breaking per-outer-value ordering; and when the outer completes
while the (never-completed, still open) first inner is active, the empty
buffer makes downstream complete immediately. -/
theorem concatMap_subscribes_inner_immediately :
    (getSubj coRun2 1).subs = [2]
    ∧ (getSubj coRun2 2).subs = [3]
    ∧ coRun3.wlog = [SEv.n 99, SEv.n 7]
    ∧ coRunC.wlog = [SEv.c]
    ∧ (getSafe coRunC 2).closed = false := by
  decide

end Trex
